import Mathlib

/-!
# Compact codec for EIP-7702 authorizations — verification development

Shallow embedding of `crates/storage/codecs/src/alloy/authorization_list.rs`
and of `examples/custom-inspector/src/main.rs` (the `is_match` helper).

Byte buffers are `List Nat` (each entry a byte value `< 256`); machine
integers are `Nat` with explicit `% 2^w` where width matters.  Fallible
decoding (Rust slice indexing / `get_u8`, which panic on short buffers)
is modelled with `Option`.
-/

/-- A 20-byte Ethereum address, modelled as its list of byte values. -/
abbrev Address : Type := List Nat

/-- Little-endian fixed-width byte rendering: exactly `k` bytes of `v`
(models `U256::as_le_slice` for `k = 32` and a fixed-width `u64` for `k = 8`). -/
def leBytes : Nat → Nat → List Nat
  | 0, _ => []
  | k + 1, v => (v % 256) :: leBytes k (v / 256)

/-- Read a little-endian byte list back as a natural number
(models `U256::from_le_slice`). -/
def leBytesToNat : List Nat → Nat
  | [] => 0
  | b :: bs => b % 256 + 256 * leBytesToNat bs

/-- Division-by-256 recursion driven by a structural fuel argument (so the
function reduces definitionally); `fuel = v` always suffices. -/
def minLeBytesAux : Nat → Nat → List Nat
  | 0, _ => []
  | fuel + 1, v => if v = 0 then [] else (v % 256) :: minLeBytesAux fuel (v / 256)

/-- Minimal little-endian byte rendering: leading-zero (here: trailing-zero
of the list) elision, the variable-width encoding of wide integers. -/
def minLeBytes (v : Nat) : List Nat :=
  minLeBytesAux v v

/-- Normalize an address to exactly 20 raw bytes (the Rust `Address` type is
`[u8; 20]`, so this is the identity on every value the code can hold). -/
def addr20 (a : Address) : List Nat :=
  (a ++ List.replicate 20 0).take 20

/-- Consume `n` bytes from the front of a cursor as a little-endian integer;
`none` when fewer than `n` bytes remain (a Rust slice-bounds panic). -/
def readLe (n : Nat) (buf : List Nat) : Option (Nat × List Nat) :=
  if n ≤ buf.length then some (leBytesToNat (buf.take n), buf.drop n) else none

/-- The local mirror struct `Authorization` of
`authorization_list.rs`: chain id (U256), address (20 bytes), nonce (u64). -/
structure Authorization where
  chain_id : Nat
  address : Address
  nonce : Nat
deriving DecidableEq

/-- Modelled from the spec: the derive-generated `Compact::to_compact` for the
mirror `Authorization` struct is not part of the shown sources (only the
`#[derive(Compact)]` attribute is).  Following §6 of the spec, the fields are
appended in declared order: the chain identifier in variable-width elided
form with a field-adjacent one-byte length indicator, the address as 20 raw
bytes, the nonce as 8 raw fixed-width bytes; the returned count is the number
of bytes appended. -/
def Authorization.to_compact (a : Authorization) (buf : List Nat) :
    List Nat × Nat :=
  (buf ++ ((minLeBytes a.chain_id).length % 256 ::
      (minLeBytes a.chain_id ++ (addr20 a.address ++ leBytes 8 a.nonce))),
   1 + (minLeBytes a.chain_id).length + 20 + 8)

/-- Modelled from the spec: the derive-generated `Compact::from_compact` for
the mirror `Authorization` struct (not part of the shown sources).  Inverse of
`Authorization.to_compact`: reads the chain-id length indicator byte, that
many little-endian chain-id bytes, 20 address bytes and 8 nonce bytes, in
declared field order; fails on a truncated buffer. -/
def Authorization.from_compact (buf : List Nat) (_len : Nat) :
    Option (Authorization × List Nat) :=
  match buf with
  | [] => none
  | n :: rest =>
    match readLe n rest with
    | none => none
    | some (cid, rest) =>
      if 20 ≤ rest.length then
        let address := rest.take 20
        let rest := rest.drop 20
        match readLe 8 rest with
        | none => none
        | some (nonce, rest) => some (⟨cid, address, nonce⟩, rest)
      else none

/-- The external `alloy_eips::eip7702::Authorization` value type (public
fields chain id, address, nonce). -/
structure AlloyAuthorization where
  chain_id : Nat
  address : Address
  nonce : Nat
deriving DecidableEq

/-- The public accessor `Authorization::nonce()` of the external type, used by
the bridge on the encode path. -/
def AlloyAuthorization.nonceAccessor (a : AlloyAuthorization) : Nat :=
  a.nonce

/-- `impl Compact for AlloyAuthorization`, encode path: project the external
value through its accessors into the local mirror struct and delegate. -/
def AlloyAuthorization.to_compact (a : AlloyAuthorization) (buf : List Nat) :
    List Nat × Nat :=
  Authorization.to_compact ⟨a.chain_id, a.address, a.nonceAccessor⟩ buf

/-- `impl Compact for AlloyAuthorization`, decode path: decode the mirror
struct, then reproject field-for-field into the external value. -/
def AlloyAuthorization.from_compact (buf : List Nat) (len : Nat) :
    Option (AlloyAuthorization × List Nat) :=
  match Authorization.from_compact buf len with
  | none => none
  | some (a, rest) => some (⟨a.chain_id, a.address, a.nonce⟩, rest)

/-- `alloy_eips::eip7702::SignedAuthorization`: an inner authorization plus
the signature components parity (u8), r (U256), s (U256). -/
structure SignedAuthorization where
  inner : AlloyAuthorization
  y_parity : Nat
  r : Nat
  s : Nat
deriving DecidableEq

/-- `impl Compact for SignedAuthorization`, `to_compact`: `put_u8(y_parity)`,
`put_slice(r.as_le_slice())`, `put_slice(s.as_le_slice())`, then delegate the
inner authorization; returns `1 + 32 + 32 +` the inner count. -/
def SignedAuthorization.to_compact (v : SignedAuthorization)
    (buf : List Nat) : List Nat × Nat :=
  let buf := buf ++ [v.y_parity % 256]
  let buf := buf ++ leBytes 32 v.r
  let buf := buf ++ leBytes 32 v.s
  let res := AlloyAuthorization.to_compact v.inner buf
  (res.1, 1 + 32 + 32 + res.2)

/-- The declared length that `SignedAuthorization::from_compact` forwards to
the nested `AlloyAuthorization::from_compact` call: the source passes its own
`len` argument through unchanged. -/
def SignedAuthorization.innerDeclaredLen (len : Nat) : Nat :=
  len

/-- `impl Compact for SignedAuthorization`, `from_compact`: `get_u8` for the
parity, two 32-byte little-endian slices for r and s, then the nested inner
decode, rebuilt with `new_unchecked` (the plain constructor, no validation).
Short buffers fail (`none`), as the Rust slice operations panic. -/
def SignedAuthorization.from_compact (buf : List Nat) (len : Nat) :
    Option (SignedAuthorization × List Nat) :=
  match buf with
  | [] => none
  | y :: rest =>
    match readLe 32 rest with
    | none => none
    | some (r, rest) =>
      match readLe 32 rest with
      | none => none
      | some (s, rest) =>
        match AlloyAuthorization.from_compact rest
            (SignedAuthorization.innerDeclaredLen len) with
        | none => none
        | some (auth, rest) => some (⟨auth, y, r, s⟩, rest)

/-- Validity of an address: 20 bytes, each an 8-bit value. -/
def ValidAddress (a : Address) : Prop :=
  a.length = 20 ∧ ∀ b ∈ a, b < 256

/-- Validity of an external authorization: the ranges the Rust types
`U256`, `Address`, `u64` enforce. -/
def ValidAuth (a : AlloyAuthorization) : Prop :=
  a.chain_id < 2 ^ 256 ∧ ValidAddress a.address ∧ a.nonce < 2 ^ 64

/-- Validity of a signed authorization: the ranges the Rust types
`u8`, `U256` enforce, plus a valid inner authorization. -/
def ValidSigned (v : SignedAuthorization) : Prop :=
  v.y_parity < 256 ∧ v.r < 2 ^ 256 ∧ v.s < 2 ^ 256 ∧ ValidAuth v.inner

instance (a : Address) : Decidable (ValidAddress a) := by
  unfold ValidAddress; infer_instance

instance (a : AlloyAuthorization) : Decidable (ValidAuth a) := by
  unfold ValidAuth; infer_instance

instance (v : SignedAuthorization) : Decidable (ValidSigned v) := by
  unfold ValidSigned; infer_instance

/-- The CLI extension of `examples/custom-inspector/src/main.rs`: the
recipient addresses to trace. -/
structure RethCliTxpoolExt where
  recipients : List Address

/-- `RethCliTxpoolExt::is_match`: the recipient list is empty or contains the
recipient. -/
def RethCliTxpoolExt.is_match (e : RethCliTxpoolExt) (recipient : Address) :
    Bool :=
  e.recipients.isEmpty || e.recipients.contains recipient

/-- The authorization of the repository's round-trip test: chain id 1,
address `0xdac17f958d2ee523a2206206994597c13d831ec7`, nonce 1. -/
def sampleAuth : AlloyAuthorization :=
  ⟨1,
   [0xda, 0xc1, 0x7f, 0x95, 0x8d, 0x2e, 0xe5, 0x23, 0xa2, 0x20,
    0x62, 0x06, 0x99, 0x45, 0x97, 0xc1, 0x3d, 0x83, 0x1e, 0xc7],
   1⟩

/-- The signed authorization of the repository's round-trip test: `sampleAuth`
with parity 0 and the test's r and s scalars. -/
def sampleSigned : SignedAuthorization :=
  ⟨sampleAuth, 0,
   0x1fd474b1f9404c0c5df43b7620119ffbc3a1c3f942c73b6e14e9f55255ed9b1d,
   0x29aca24813279a901ec13b5f7bb53385fa1fc627b946592221417ff74a49600d⟩

/-- A concrete tail for the parity-unchecked scenario: 64 signature bytes
followed by a well-formed inner-authorization encoding. -/
def parityTailSample : List Nat :=
  List.replicate 64 0 ++ (AlloyAuthorization.to_compact sampleAuth []).1

/-! ## Helper lemmas -/

theorem minLeBytesAux_zero (f : Nat) : minLeBytesAux f 0 = [] := by
  cases f <;> rfl

theorem minLeBytesAux_congr :
    ∀ f1 f2 v : Nat, v ≤ f1 → v ≤ f2 →
      minLeBytesAux f1 v = minLeBytesAux f2 v := by
  intro f1
  induction f1 with
  | zero =>
    intro f2 v h1 _
    have : v = 0 := Nat.le_zero.mp h1
    subst this
    rw [minLeBytesAux_zero, minLeBytesAux_zero]
  | succ f ih =>
    intro f2 v h1 h2
    by_cases hv : v = 0
    · subst hv
      rw [minLeBytesAux_zero, minLeBytesAux_zero]
    · match f2, h2 with
      | 0, h2 => exact absurd (Nat.le_zero.mp h2) hv
      | f2 + 1, h2 =>
        simp only [minLeBytesAux, if_neg hv]
        have hd : v / 256 < v := Nat.div_lt_self (Nat.pos_of_ne_zero hv) (by norm_num)
        rw [ih f2 (v / 256) (by omega) (by omega)]

theorem minLeBytes_eq (v : Nat) :
    minLeBytes v = if v = 0 then [] else (v % 256) :: minLeBytes (v / 256) := by
  unfold minLeBytes
  cases v with
  | zero => rfl
  | succ n =>
    simp only [minLeBytesAux, if_neg (Nat.succ_ne_zero n)]
    have hd : (n + 1) / 256 < n + 1 := Nat.div_lt_self (Nat.succ_pos n) (by norm_num)
    rw [minLeBytesAux_congr n ((n + 1) / 256) ((n + 1) / 256) (by omega) (le_refl _)]

theorem length_leBytes (k v : Nat) : (leBytes k v).length = k := by
  induction k generalizing v with
  | zero => rfl
  | succ k ih => simp [leBytes, ih]

theorem leBytesToNat_leBytes (k v : Nat) :
    leBytesToNat (leBytes k v) = v % 256 ^ k := by
  induction k generalizing v with
  | zero => simp [leBytes, leBytesToNat, Nat.mod_one]
  | succ k ih =>
    simp only [leBytes, leBytesToNat, ih]
    rw [pow_succ, mul_comm (256 ^ k) 256, Nat.mod_mul]
    omega

theorem leBytesToNat_minLeBytes (v : Nat) :
    leBytesToNat (minLeBytes v) = v := by
  induction v using Nat.strong_induction_on with
  | _ v ih =>
    rw [minLeBytes_eq]
    by_cases h : v = 0
    · simp [h, leBytesToNat]
    · simp only [h, if_false, leBytesToNat, Nat.mod_mod_of_dvd _ dvd_rfl]
      rw [ih (v / 256) (Nat.div_lt_self (Nat.pos_of_ne_zero h) (by norm_num))]
      omega

theorem length_minLeBytes_le (k v : Nat) (h : v < 256 ^ k) :
    (minLeBytes v).length ≤ k := by
  induction v using Nat.strong_induction_on generalizing k with
  | _ v ih =>
    rw [minLeBytes_eq]
    by_cases h0 : v = 0
    · simp [h0]
    · simp only [h0, if_false, List.length_cons]
      match k with
      | 0 => simp at h; omega
      | k + 1 =>
        have hd : v / 256 < 256 ^ k := by
          rw [Nat.div_lt_iff_lt_mul (by norm_num)]
          calc v < 256 ^ (k + 1) := h
            _ = 256 ^ k * 256 := by ring
        have := ih (v / 256)
          (Nat.div_lt_self (Nat.pos_of_ne_zero h0) (by norm_num)) k hd
        omega

theorem length_addr20 (a : Address) : (addr20 a).length = 20 := by
  simp [addr20]

theorem addr20_eq (a : Address) (h : a.length = 20) : addr20 a = a := by
  simp [addr20, List.take_append_of_le_length h.ge, h, List.take_length]

theorem readLe_append (n : Nat) (pre rest : List Nat)
    (h : pre.length = n) :
    readLe n (pre ++ rest) = some (leBytesToNat pre, rest) := by
  subst h
  rw [readLe, if_pos (by simp)]
  rw [List.take_left, List.drop_left]

theorem readLe_none (n : Nat) (buf : List Nat) (h : buf.length < n) :
    readLe n buf = none := by
  rw [readLe, if_neg (by omega)]

theorem pow256_32 : (256 : Nat) ^ 32 = 2 ^ 256 := by norm_num

theorem pow256_8 : (256 : Nat) ^ 8 = 2 ^ 64 := by norm_num

theorem auth_enc_decode (a : Authorization) (len : Nat) (rest : List Nat)
    (hcid : a.chain_id < 2 ^ 256) (haddr : a.address.length = 20)
    (hnonce : a.nonce < 2 ^ 64) :
    Authorization.from_compact ((Authorization.to_compact a []).1 ++ rest) len
      = some (a, rest) := by
  obtain ⟨cid, addr, nonce⟩ := a
  simp only at hcid haddr hnonce
  have hL : (minLeBytes cid).length ≤ 32 :=
    length_minLeBytes_le 32 cid (pow256_32 ▸ hcid)
  simp only [Authorization.to_compact, List.nil_append, List.cons_append,
    List.append_assoc]
  rw [Authorization.from_compact]
  rw [Nat.mod_eq_of_lt (by omega)]
  rw [readLe_append _ _ _ rfl]
  rw [leBytesToNat_minLeBytes]
  dsimp only
  have h20 : (20 : Nat) = (addr20 addr).length := (length_addr20 addr).symm
  rw [if_pos (by simp [length_addr20])]
  simp only [h20, List.take_left, List.drop_left]
  rw [readLe_append 8 _ _ (length_leBytes 8 nonce)]
  rw [leBytesToNat_leBytes, pow256_8, Nat.mod_eq_of_lt hnonce,
    addr20_eq addr haddr]

theorem alloy_enc_decode (a : AlloyAuthorization) (len : Nat)
    (rest : List Nat) (ha : ValidAuth a) :
    AlloyAuthorization.from_compact
      ((AlloyAuthorization.to_compact a []).1 ++ rest) len = some (a, rest) := by
  obtain ⟨hcid, ⟨hlen, _⟩, hnonce⟩ := ha
  rw [AlloyAuthorization.from_compact, AlloyAuthorization.to_compact]
  rw [auth_enc_decode ⟨a.chain_id, a.address, a.nonceAccessor⟩ len rest hcid
    hlen hnonce]
  rfl

theorem signed_to_compact_eq (v : SignedAuthorization) (buf : List Nat) :
    SignedAuthorization.to_compact v buf =
      (buf ++ (v.y_parity % 256 :: (leBytes 32 v.r ++ (leBytes 32 v.s
          ++ (AlloyAuthorization.to_compact v.inner []).1))),
       1 + 32 + 32 + (AlloyAuthorization.to_compact v.inner []).2) := by
  simp [SignedAuthorization.to_compact, AlloyAuthorization.to_compact,
    Authorization.to_compact, List.append_assoc]

/-- C1: for every valid signed authorization value (any parity byte, 256-bit
r and s, chain id, 20-byte address, 64-bit nonce, boundaries included),
decoding the bytes produced by `to_compact` with the byte count returned by
`to_compact` yields the original value. -/
theorem signed_roundtrip (v : SignedAuthorization) (hv : ValidSigned v) :
    SignedAuthorization.from_compact (SignedAuthorization.to_compact v []).1
      (SignedAuthorization.to_compact v []).2 = some (v, []) := by
  obtain ⟨hy, hr, hs, hauth⟩ := hv
  rw [signed_to_compact_eq]
  simp only [List.nil_append]
  rw [SignedAuthorization.from_compact]
  rw [Nat.mod_eq_of_lt hy]
  rw [readLe_append 32 _ _ (length_leBytes 32 v.r)]
  dsimp only
  rw [readLe_append 32 _ _ (length_leBytes 32 v.s)]
  dsimp only
  have h := alloy_enc_decode v.inner (SignedAuthorization.innerDeclaredLen
    (1 + 32 + 32 + (AlloyAuthorization.to_compact v.inner []).2)) [] hauth
  rw [List.append_nil] at h
  rw [h]
  rw [leBytesToNat_leBytes, leBytesToNat_leBytes, pow256_32,
    Nat.mod_eq_of_lt hr, Nat.mod_eq_of_lt hs]

/-- C1 witness: the round-trip law at the repository test's concrete signed
authorization. -/
theorem signed_roundtrip_witness :
    SignedAuthorization.from_compact
      (SignedAuthorization.to_compact sampleSigned []).1
      (SignedAuthorization.to_compact sampleSigned []).2
      = some (sampleSigned, []) :=
  signed_roundtrip sampleSigned (by decide)

/-- C2 counterexample: at declared length 100, the length forwarded to the
nested inner decode is 100, not 100 − 65 = 35; the claim as stated fails. -/
theorem innerDeclaredLen_not_sub65 :
    ¬ (SignedAuthorization.innerDeclaredLen 100 = 100 - 65) := by
  decide

/-- C2 amended: decoding a signed wrapper forwards the full declared length
`len`, unchanged, to the nested inner authorization decode (the inner decoder
does not rely on it for this struct). -/
theorem from_compact_forwards_full_len (y len : Nat) (pre tail : List Nat)
    (h : pre.length = 64) :
    SignedAuthorization.innerDeclaredLen len = len ∧
    SignedAuthorization.from_compact (y :: (pre ++ tail)) len =
      (match AlloyAuthorization.from_compact tail
          (SignedAuthorization.innerDeclaredLen len) with
       | none => none
       | some (auth, rest) =>
         some (⟨auth, y, leBytesToNat (pre.take 32),
           leBytesToNat (pre.drop 32)⟩, rest)) := by
  refine ⟨rfl, ?_⟩
  rw [SignedAuthorization.from_compact]
  have hsplit : pre ++ tail = pre.take 32 ++ (pre.drop 32 ++ tail) := by
    rw [← List.append_assoc, List.take_append_drop]
  rw [hsplit, readLe_append 32 _ _ (by simp [h])]
  dsimp only
  rw [readLe_append 32 _ _ (by simp [h])]

/-- C2 amended witness: the forwarding fact at a concrete 64-byte prefix. -/
theorem from_compact_forwards_full_len_witness :
    (List.replicate 64 0).length = 64 ∧
    (SignedAuthorization.innerDeclaredLen 5 = 5 ∧
     SignedAuthorization.from_compact (0 :: (List.replicate 64 0 ++ [])) 5 =
      (match AlloyAuthorization.from_compact []
          (SignedAuthorization.innerDeclaredLen 5) with
       | none => none
       | some (auth, rest) =>
         some (⟨auth, 0, leBytesToNat ((List.replicate 64 0).take 32),
           leBytesToNat ((List.replicate 64 0).drop 32)⟩, rest))) :=
  ⟨by decide, from_compact_forwards_full_len 0 5 (List.replicate 64 0) []
    (by decide)⟩

/-- C3: decoding a signed wrapper from any byte slice shorter than 65 bytes
fails (`none`); no value is built by zero-filling or reading out of bounds. -/
theorem from_compact_short_fails (buf : List Nat) (len : Nat)
    (h : buf.length < 65) :
    SignedAuthorization.from_compact buf len = none := by
  match buf with
  | [] => rfl
  | y :: rest =>
    rw [SignedAuthorization.from_compact]
    simp only [List.length_cons] at h
    by_cases h32 : rest.length < 32
    · rw [readLe_none 32 rest h32]
    · rw [readLe, if_pos (by omega)]
      dsimp only
      rw [readLe_none 32 _ (by simp only [List.length_drop]; omega)]

/-- C3 witness: a 64-byte buffer is rejected. -/
theorem from_compact_short_fails_witness :
    (List.replicate 64 0).length < 65 ∧
    SignedAuthorization.from_compact (List.replicate 64 0) 7 = none :=
  ⟨by decide, from_compact_short_fails (List.replicate 64 0) 7 (by decide)⟩

/-- C4: the byte count returned for a signed wrapper is 65 plus the byte
count returned for encoding its inner authorization alone. -/
theorem signed_length_additivity (v : SignedAuthorization)
    (buf buf2 : List Nat) :
    (SignedAuthorization.to_compact v buf).2 =
      65 + (AlloyAuthorization.to_compact v.inner buf2).2 := by
  rw [signed_to_compact_eq]
  simp only [AlloyAuthorization.to_compact, Authorization.to_compact]

/-- C5: the bytes appended for a signed wrapper are exactly, in order: one
parity byte, the 32 little-endian bytes of r (fixed width, no elision), the
32 little-endian bytes of s, then the inner authorization's encoding. -/
theorem signed_to_compact_bytes (v : SignedAuthorization) (buf : List Nat)
    (hy : v.y_parity < 256) :
    (SignedAuthorization.to_compact v buf).1 =
      buf ++ [v.y_parity] ++ leBytes 32 v.r ++ leBytes 32 v.s
        ++ (AlloyAuthorization.to_compact v.inner []).1
    ∧ (leBytes 32 v.r).length = 32 ∧ (leBytes 32 v.s).length = 32 := by
  refine ⟨?_, length_leBytes 32 v.r, length_leBytes 32 v.s⟩
  rw [signed_to_compact_eq, Nat.mod_eq_of_lt hy]
  simp [List.append_assoc]

/-- C5 witness: the byte layout at the repository test's signed value. -/
theorem signed_to_compact_bytes_witness :
    sampleSigned.y_parity < 256 ∧
    ((SignedAuthorization.to_compact sampleSigned []).1 =
      [] ++ [sampleSigned.y_parity] ++ leBytes 32 sampleSigned.r
        ++ leBytes 32 sampleSigned.s
        ++ (AlloyAuthorization.to_compact sampleSigned.inner []).1
     ∧ (leBytes 32 sampleSigned.r).length = 32
     ∧ (leBytes 32 sampleSigned.s).length = 32) :=
  ⟨by decide, signed_to_compact_bytes sampleSigned [] (by decide)⟩

/-- C6: the external authorization's encoding is exactly the mirror struct's
encoding of its accessor-projected fields (same bytes, same byte count), and
its decoding is the mirror struct's decoding reprojected field-for-field. -/
theorem alloy_bridge_refinement (a : AlloyAuthorization) (buf : List Nat)
    (len : Nat) :
    AlloyAuthorization.to_compact a buf =
      Authorization.to_compact ⟨a.chain_id, a.address, a.nonceAccessor⟩ buf
    ∧ AlloyAuthorization.from_compact buf len =
      Option.map (fun p : Authorization × List Nat =>
          (⟨p.1.chain_id, p.1.address, p.1.nonce⟩, p.2))
        (Authorization.from_compact buf len) := by
  refine ⟨rfl, ?_⟩
  rw [AlloyAuthorization.from_compact]
  cases Authorization.from_compact buf len with
  | none => rfl
  | some p => rfl

/-- C7: for every value (signed wrapper or plain authorization) and every
initial sink contents, the byte count returned by the encoder equals the
number of bytes it appended to the sink. -/
theorem to_compact_count_eq_appended (v : SignedAuthorization)
    (a : AlloyAuthorization) (buf buf2 : List Nat) :
    (SignedAuthorization.to_compact v buf).1.length =
      buf.length + (SignedAuthorization.to_compact v buf).2
    ∧ (AlloyAuthorization.to_compact a buf2).1.length =
      buf2.length + (AlloyAuthorization.to_compact a buf2).2 := by
  constructor
  · rw [signed_to_compact_eq]
    simp [AlloyAuthorization.to_compact, Authorization.to_compact,
      length_addr20, length_leBytes]
    omega
  · simp [AlloyAuthorization.to_compact, Authorization.to_compact,
      length_addr20, length_leBytes]
    omega

/-- C8: decoding never validates the parity byte: for every leading byte b
(including b outside {0, 1}), decoding a sufficiently long well-formed buffer
succeeds and the result's parity component is exactly b. -/
theorem from_compact_parity_unchecked (b len : Nat) (tail : List Nat)
    (h64 : 64 ≤ tail.length)
    (hin : (AlloyAuthorization.from_compact (tail.drop 64)
      (SignedAuthorization.innerDeclaredLen len)).isSome = true) :
    ∃ auth r s rem, SignedAuthorization.from_compact (b :: tail) len =
      some (⟨auth, b, r, s⟩, rem) := by
  rw [SignedAuthorization.from_compact]
  rw [readLe, if_pos (by omega)]
  dsimp only
  rw [readLe, if_pos (by simp only [List.length_drop]; omega)]
  dsimp only
  rw [List.drop_drop]
  obtain ⟨⟨auth, rem⟩, hsome⟩ := Option.isSome_iff_exists.mp hin
  rw [show (32 + 32 : Nat) = 64 from rfl, hsome]
  exact ⟨auth, _, _, rem, rfl⟩

/-- C8 witness: parity byte 200 (outside {0, 1}) decodes successfully and is
returned verbatim. -/
theorem from_compact_parity_unchecked_witness :
    64 ≤ parityTailSample.length ∧
    (AlloyAuthorization.from_compact (parityTailSample.drop 64)
      (SignedAuthorization.innerDeclaredLen 94)).isSome = true ∧
    ∃ auth r s rem,
      SignedAuthorization.from_compact (200 :: parityTailSample) 94 =
        some (⟨auth, 200, r, s⟩, rem) :=
  ⟨by decide, by decide,
   from_compact_parity_unchecked 200 94 parityTailSample (by decide)
     (by decide)⟩

/-- C9: encoding only ever appends: the sink's previous contents are
unchanged and remain a prefix of the sink after the call, for both the
signed wrapper and the plain authorization encoder. -/
theorem to_compact_append_only (v : SignedAuthorization)
    (a : AlloyAuthorization) (buf buf2 : List Nat) :
    (∃ app, (SignedAuthorization.to_compact v buf).1 = buf ++ app)
    ∧ ∃ app2, (AlloyAuthorization.to_compact a buf2).1 = buf2 ++ app2 := by
  constructor
  · exact ⟨_, by rw [signed_to_compact_eq]⟩
  · exact ⟨_, rfl⟩

/-- C10: `is_match` holds exactly when the recipients list is empty or
contains the address; with no recipients configured every address matches. -/
theorem is_match_iff (e : RethCliTxpoolExt) (a : Address) :
    e.is_match a = true ↔ e.recipients = [] ∨ a ∈ e.recipients := by
  simp [RethCliTxpoolExt.is_match, List.isEmpty_iff]
